import Mathlib

/-!
Shallow embedding of the "Crazy Ones" card game engine.

Source files embedded here:
* `src/unnamed/part_000` (types.ts): `Suit`, `Rank`, `CardData`, `GameStatus`.
* `src/unnamed/part_001` (utils/gameLogic.ts): `SUITS`, `RANKS`, `createDeck`,
  `shuffle`, `isValidMove`, `getAiMove`.
* `src/src/App.tsx`: `GameState`, `GameAction`, `initialState`, `gameReducer`,
  and the guarded player-play entry point `handlePlayerPlay` of `GameContent`.

Modelling conventions:
* JS arrays become Lean lists in the same order; `push`/append at the end is
  `++ [x]`, `pop` takes `getLast?` and keeps `dropLast`, `unshift` is `cons`,
  `splice(0, 8)` is `take 8` / `drop 8`.
* Card ids are `Nat` (the source uses a string containing a strictly
  increasing counter, so ids are distinct exactly as the counter is).
* `Math.random` is modelled by universally quantifying over the outcomes: the
  shuffled deck is an arbitrary permutation of the freshly built deck, and the
  AI's random pick among its candidate moves is an arbitrary `Nat` parameter
  reduced modulo the number of candidates.
-/

inductive Suit
  | hearts
  | diamonds
  | clubs
  | spades
deriving DecidableEq

inductive Rank
  | A
  | r2
  | r3
  | r4
  | r5
  | r6
  | r7
  | r8
  | r9
  | r10
  | J
  | Q
  | K
deriving DecidableEq

structure Card where
  id : Nat
  suit : Suit
  rank : Rank
  value : Nat
deriving DecidableEq

inductive GameStatus
  | menu
  | playing
  | gameOver
deriving DecidableEq

inductive Turn
  | player
  | ai
deriving DecidableEq

def SUITS : List Suit := [Suit.hearts, Suit.diamonds, Suit.clubs, Suit.spades]

def RANKS : List Rank :=
  [Rank.A, Rank.r2, Rank.r3, Rank.r4, Rank.r5, Rank.r6, Rank.r7, Rank.r8,
   Rank.r9, Rank.r10, Rank.J, Rank.Q, Rank.K]

/-- The `value` computed in `createDeck`: A=1, J/Q/K=10, numeric ranks face value. -/
def rankValue : Rank → Nat
  | Rank.A => 1
  | Rank.r2 => 2
  | Rank.r3 => 3
  | Rank.r4 => 4
  | Rank.r5 => 5
  | Rank.r6 => 6
  | Rank.r7 => 7
  | Rank.r8 => 8
  | Rank.r9 => 9
  | Rank.r10 => 10
  | Rank.J => 10
  | Rank.Q => 10
  | Rank.K => 10

/-- The 52-card deck built by `createDeck` before shuffling: suits in `SUITS`
order, ranks in `RANKS` order, ids assigned by the running counter.
`createDeck` itself returns `shuffle` of this list; the shuffle is modelled by
quantifying over permutations of `baseDeck`. -/
def baseDeck : List Card :=
  ((SUITS.flatMap fun s => RANKS.map fun r => (s, r)).enum).map fun p =>
    { id := p.1, suit := p.2.1, rank := p.2.2, value := rankValue p.2.2 }

def isAce (c : Card) : Bool := decide (c.rank = Rank.A)

/-- `isValidMove(card, topCard, currentSuit)` from gameLogic: an Ace is always
valid; with no top card any card is valid; otherwise the target suit is the
declared suit if set (JS `currentSuit || topCard.suit`), else the top card's
suit, and the card must match the target suit or the top card's rank. -/
def isValidMove (card : Card) (topCard : Option Card) (currentSuit : Option Suit) : Bool :=
  if card.rank = Rank.A then true
  else
    match topCard with
    | none => true
    | some t =>
      let targetSuit := currentSuit.getD t.suit
      decide (card.suit = targetSuit) || decide (card.rank = t.rank)

/-- The local `normalMoves` of `getAiMove`: the non-Ace cards of the hand that
pass `isValidMove` against the given top card and declared suit. -/
def normalMoves (hand : List Card) (topCard : Option Card) (currentSuit : Option Suit) :
    List Card :=
  hand.filter fun c => !isAce c && isValidMove c topCard currentSuit

/-- `getAiMove(hand, topCard, currentSuit)`: `null` on empty hand or missing
top card; else pick a random element of the non-Ace valid moves if any
(`pick` is the random outcome, reduced mod the candidate count as
`Math.floor(Math.random() * n)` lands in `[0, n)`); else the first Ace found;
else `null`. -/
def getAiMove (pick : Nat) (hand : List Card) (topCard : Option Card)
    (currentSuit : Option Suit) : Option Card :=
  match topCard with
  | none => none
  | some _ =>
    if hand.isEmpty then none
    else
      if h : 0 < (normalMoves hand topCard currentSuit).length then
        some ((normalMoves hand topCard currentSuit).get
          ⟨pick % (normalMoves hand topCard currentSuit).length, Nat.mod_lt _ h⟩)
      else
        match hand.find? isAce with
        | some w => some w
        | none => none

structure GameState where
  status : GameStatus
  deck : List Card
  playerHand : List Card
  aiHand : List Card
  discardPile : List Card
  turn : Turn
  currentSuit : Option Suit
  message : String
  isAiThinking : Bool
  showSuitPicker : Bool
deriving DecidableEq

def initialState : GameState :=
  { status := GameStatus.menu
    deck := []
    playerHand := []
    aiHand := []
    discardPile := []
    turn := Turn.player
    currentSuit := none
    message := ""
    isAiThinking := false
    showSuitPicker := false }

/-- The `START_GAME` case carries the shuffled deck (`createDeck()`'s random
output) as data; the other cases carry the same payloads as in the source. -/
inductive GameAction
  | START_GAME (shuffled : List Card)
  | PLAYER_PLAY (card : Card)
  | AI_PLAY (card : Card)
  | DRAW (who : Turn)
  | SET_SUIT (suit : Suit)
  | SET_MENU
  | SET_AI_THINKING (value : Bool)
  | SKIP_TURN (who : Turn)

/-- The `while (firstDiscard.rank === 'A')` seed loop of `START_GAME`: pop the
last card; if it is an Ace, unshift it to the front (the bottom of the draw
pile, which is consumed from the end) and pop again.  The JS loop has no fuel;
it terminates whenever a non-Ace is present, and `START_GAME` runs it on a
36-card remainder of a 52-card deck containing only 4 Aces.  The fuel makes
the recursion structural; `none` (fuel exhausted or empty deck) is unreachable
in the reducer's use. -/
def drawSeed : Nat → List Card → Option (Card × List Card)
  | 0, _ => none
  | fuel + 1, deck =>
    match deck.getLast? with
    | none => none
    | some c =>
      if isAce c then drawSeed fuel (c :: deck.dropLast)
      else some (c, deck.dropLast)

/-- The `START_GAME` case of `gameReducer`, applied to the shuffled deck `d`:
`splice(0,8)` twice for the two hands, then pop a non-Ace seed card for the
discard pile.  On the unreachable `none` branch the state is returned
unchanged (the JS code would not terminate there). -/
def startGame (d : List Card) (state : GameState) : GameState :=
  match drawSeed (d.drop 16).length (d.drop 16) with
  | some (firstDiscard, newDeck) =>
    { initialState with
        status := GameStatus.playing
        deck := newDeck
        playerHand := d.take 8
        aiHand := (d.drop 8).take 8
        discardPile := [firstDiscard]
        message := "你的回合！" }
  | none => state

/-- `gameReducer(state, action)` from App.tsx, case by case.  In `DRAW`,
`deck.getLast? = none` exactly when `deck.length === 0`, the source's guard. -/
def gameReducer (state : GameState) (action : GameAction) : GameState :=
  match action with
  | GameAction.START_GAME d => startGame d state
  | GameAction.PLAYER_PLAY card =>
    let newHand := state.playerHand.filter fun c => decide (c.id ≠ card.id)
    { state with
        playerHand := newHand
        discardPile := state.discardPile ++ [card]
        status := if newHand.length = 0 then GameStatus.gameOver else state.status
        showSuitPicker := decide (¬ newHand.length = 0 ∧ card.rank = Rank.A)
        currentSuit := if card.rank = Rank.A then state.currentSuit else none
        turn := if newHand.length = 0 ∨ card.rank = Rank.A then Turn.player else Turn.ai
        message :=
          if newHand.length = 0 then "你赢了！"
          else if card.rank = Rank.A then "请选择花色" else "AI 正在思考..." }
  | GameAction.AI_PLAY card =>
    let newHand := state.aiHand.filter fun c => decide (c.id ≠ card.id)
    { state with
        aiHand := newHand
        discardPile := state.discardPile ++ [card]
        status := if newHand.length = 0 then GameStatus.gameOver else state.status
        currentSuit := if card.rank = Rank.A then state.currentSuit else none
        turn := Turn.player
        message := if newHand.length = 0 then "AI 赢了" else "你的回合！" }
  | GameAction.DRAW who =>
    match state.deck.getLast? with
    | none => state
    | some drawnCard =>
      let newDeck := state.deck.dropLast
      match who with
      | Turn.player =>
        { state with
            deck := newDeck
            playerHand := state.playerHand ++ [drawnCard]
            turn := Turn.ai
            message := "你摸了一张牌。AI 思考中..." }
      | Turn.ai =>
        { state with
            deck := newDeck
            aiHand := state.aiHand ++ [drawnCard]
            turn := Turn.player
            message := "AI 摸了一张牌。你的回合！" }
  | GameAction.SET_SUIT suit =>
    { state with
        currentSuit := some suit
        showSuitPicker := false
        turn := Turn.ai
        message := "已指定花色. AI 思考中..." }
  | GameAction.SET_MENU =>
    { initialState with status := GameStatus.menu }
  | GameAction.SET_AI_THINKING value =>
    { state with isAiThinking := value }
  | GameAction.SKIP_TURN who =>
    { state with
        turn := match who with | Turn.player => Turn.ai | Turn.ai => Turn.player
        message := "摸牌堆已空，跳过回合！" }

/-- `handlePlayerPlay` of `GameContent`: the guarded dispatch through which
every human play intent flows.  It rejects the intent (state unchanged) when
the game is not in progress, it is not the player's turn, the AI is thinking,
or the card fails `isValidMove` against the discard top and declared suit. -/
def handlePlayerPlay (state : GameState) (card : Card) : GameState :=
  if state.status ≠ GameStatus.playing ∨ state.turn ≠ Turn.player ∨ state.isAiThinking = true then
    state
  else if isValidMove card state.discardPile.getLast? state.currentSuit then
    gameReducer state (GameAction.PLAYER_PLAY card)
  else state

/-- The four card zones of a state, as one list. -/
def zones (s : GameState) : List Card :=
  s.deck ++ s.playerHand ++ s.aiHand ++ s.discardPile

/-- One step of the running system: each constructor is one dispatch site of
the presentation layer.  Player plays go through `handlePlayerPlay` with a
card of the rendered hand; AI plays dispatch the card chosen by `getAiMove`
(for some random outcome `pick`); the remaining intents are dispatched raw. -/
inductive Step : GameState → GameState → Prop
  | start (s : GameState) (d : List Card) (hd : d.Perm baseDeck) :
      Step s (gameReducer s (GameAction.START_GAME d))
  | playerPlay (s : GameState) (card : Card) (hmem : card ∈ s.playerHand) :
      Step s (handlePlayerPlay s card)
  | aiPlay (s : GameState) (card : Card) (pick : Nat)
      (hmove : getAiMove pick s.aiHand s.discardPile.getLast? s.currentSuit = some card) :
      Step s (gameReducer s (GameAction.AI_PLAY card))
  | draw (s : GameState) (who : Turn) :
      Step s (gameReducer s (GameAction.DRAW who))
  | setSuit (s : GameState) (suit : Suit) :
      Step s (gameReducer s (GameAction.SET_SUIT suit))
  | setMenu (s : GameState) :
      Step s (gameReducer s GameAction.SET_MENU)
  | setThinking (s : GameState) (b : Bool) :
      Step s (gameReducer s (GameAction.SET_AI_THINKING b))
  | skip (s : GameState) (who : Turn) :
      Step s (gameReducer s (GameAction.SKIP_TURN who))

/-- States reachable by the running system from the initial (menu) state. -/
inductive Reachable : GameState → Prop
  | init : Reachable initialState
  | step {s t : GameState} : Reachable s → Step s t → Reachable t

/-! Concrete cards and states for counterexamples and witnesses. -/

def aceSpades : Card := ⟨100, Suit.spades, Rank.A, 1⟩

def aceHearts : Card := ⟨101, Suit.hearts, Rank.A, 1⟩

def aceClubs : Card := ⟨102, Suit.clubs, Rank.A, 1⟩

def fiveHearts : Card := ⟨103, Suit.hearts, Rank.r5, 5⟩

def fiveClubs : Card := ⟨104, Suit.clubs, Rank.r5, 5⟩

def sevenDiamonds : Card := ⟨105, Suit.diamonds, Rank.r7, 7⟩

def threeDiamonds : Card := ⟨106, Suit.diamonds, Rank.r3, 3⟩

def kingSpades : Card := ⟨107, Suit.spades, Rank.K, 10⟩

/-- A mid-game state: player's turn, a suit already declared from an earlier
Ace, no suit choice pending. -/
def g4 : GameState :=
  { status := GameStatus.playing
    deck := [kingSpades]
    playerHand := [aceSpades, threeDiamonds]
    aiHand := [fiveClubs]
    discardPile := [sevenDiamonds]
    turn := Turn.player
    currentSuit := some Suit.hearts
    message := ""
    isAiThinking := false
    showSuitPicker := false }

/-- The same mid-game state with an empty draw pile. -/
def g1 : GameState := { g4 with deck := [] }

/-- A terminal state: the player has emptied their hand while the draw pile
is still non-empty. -/
def g5 : GameState :=
  { status := GameStatus.gameOver
    deck := [kingSpades]
    playerHand := []
    aiHand := [fiveClubs, threeDiamonds]
    discardPile := [sevenDiamonds]
    turn := Turn.player
    currentSuit := none
    message := ""
    isAiThinking := false
    showSuitPicker := false }

/-- An AI-turn state where the AI's only legal move is its Ace. -/
def g3 : GameState :=
  { status := GameStatus.playing
    deck := []
    playerHand := [kingSpades]
    aiHand := [aceHearts, fiveClubs]
    discardPile := [sevenDiamonds]
    turn := Turn.ai
    currentSuit := none
    message := ""
    isAiThinking := true
    showSuitPicker := false }

/-- C6 counterexample: the claimed iff fails for Aces.  The Ace of clubs
neither matches the declared suit (hearts) nor the top card's rank, yet
`isValidMove` accepts it, because an Ace is always valid. -/
theorem c6_counterexample :
    isValidMove aceClubs (some fiveHearts) (some Suit.hearts) = true ∧
    aceClubs.suit ≠ Suit.hearts ∧ aceClubs.rank ≠ fiveHearts.rank := by decide

/-- C6 amended: for every NON-ACE card, top card and declared suit,
`isValidMove` returns true iff the card's suit equals the declared suit or its
rank equals the top card's rank; Aces are always valid regardless. -/
theorem c6_amended_valid_move (card t : Card) (s : Suit) (h : card.rank ≠ Rank.A) :
    isValidMove card (some t) (some s) = true ↔
      (card.suit = s ∨ card.rank = t.rank) := by
  simp [isValidMove, h, Option.getD]

/-- C6 witness: the amended theorem at a concrete non-Ace card. -/
theorem c6_witness :
    isValidMove fiveClubs (some fiveHearts) (some Suit.hearts) = true ↔
      (fiveClubs.suit = Suit.hearts ∨ fiveClubs.rank = fiveHearts.rank) :=
  c6_amended_valid_move fiveClubs fiveHearts Suit.hearts (by decide)

/-- C10: playing any non-Ace card, by either participant, resets the declared
suit (`currentSuit`) to `none` in the resulting state. -/
theorem c10_nonace_play_clears_suit (s : GameState) (card : Card) (h : card.rank ≠ Rank.A) :
    (gameReducer s (GameAction.PLAYER_PLAY card)).currentSuit = none ∧
    (gameReducer s (GameAction.AI_PLAY card)).currentSuit = none := by
  simp [gameReducer, h]

/-- C10 witness: the theorem at a concrete non-Ace card and state. -/
theorem c10_witness :
    (gameReducer g4 (GameAction.PLAYER_PLAY threeDiamonds)).currentSuit = none ∧
    (gameReducer g4 (GameAction.AI_PLAY threeDiamonds)).currentSuit = none :=
  c10_nonace_play_clears_suit g4 threeDiamonds (by decide)

/-- C4 counterexample: the player plays an Ace from a hand of two cards while
a suit (hearts) is already declared from an earlier Ace.  The play does not
empty the hand, yet the resulting `currentSuit` is NOT cleared to `none`: the
reducer keeps the previous declared suit on an Ace play. -/
theorem c4_counterexample :
    aceSpades.rank = Rank.A ∧ aceSpades ∈ g4.playerHand ∧
    (gameReducer g4 (GameAction.PLAYER_PLAY aceSpades)).playerHand ≠ [] ∧
    (gameReducer g4 (GameAction.PLAYER_PLAY aceSpades)).currentSuit ≠ none := by decide

/-- C4 amended: a non-emptying Ace play by the player leaves `currentSuit`
UNCHANGED (rather than clearing it), sets `showSuitPicker` to true, and keeps
the turn with the player. -/
theorem c4_amended_ace_play (s : GameState) (card : Card) (hA : card.rank = Rank.A)
    (hne : (s.playerHand.filter fun c => decide (c.id ≠ card.id)).length ≠ 0) :
    (gameReducer s (GameAction.PLAYER_PLAY card)).currentSuit = s.currentSuit ∧
    (gameReducer s (GameAction.PLAYER_PLAY card)).showSuitPicker = true ∧
    (gameReducer s (GameAction.PLAYER_PLAY card)).turn = Turn.player := by
  refine ⟨if_pos hA, decide_eq_true ⟨hne, hA⟩, if_pos (Or.inr hA)⟩

/-- C4 witness: the amended theorem at the concrete state `g4`. -/
theorem c4_witness :
    (gameReducer g4 (GameAction.PLAYER_PLAY aceSpades)).currentSuit = g4.currentSuit ∧
    (gameReducer g4 (GameAction.PLAYER_PLAY aceSpades)).showSuitPicker = true ∧
    (gameReducer g4 (GameAction.PLAYER_PLAY aceSpades)).turn = Turn.player :=
  c4_amended_ace_play g4 aceSpades (by decide) (by decide)

/-- C1 counterexample: a suit declaration while no suit choice is pending
(`showSuitPicker = false`) is NOT a no-op: the reducer applies `SET_SUIT`
unconditionally and the declared suit changes. -/
theorem c1_counterexample :
    g4.showSuitPicker = false ∧
    gameReducer g4 (GameAction.SET_SUIT Suit.spades) ≠ g4 ∧
    (gameReducer g4 (GameAction.SET_SUIT Suit.spades)).currentSuit ≠ g4.currentSuit := by
  decide

/-- C1 amended: illegal PLAYS are rejected unchanged — the player-play entry
point returns the snapshot untouched when the game is not in progress, it is
not the player's turn, the AI is thinking, or the card fails `isValidMove` —
and a DRAW from an empty pile is a reducer-level no-op; but suit declarations
and skips are applied unconditionally by the reducer (their legality is
enforced only by the presentation layer). -/
theorem c1_amended_illegal_intents (s : GameState) (card : Card) (who : Turn)
    (h : s.status ≠ GameStatus.playing ∨ s.turn ≠ Turn.player ∨ s.isAiThinking = true ∨
      isValidMove card s.discardPile.getLast? s.currentSuit = false) :
    handlePlayerPlay s card = s ∧
    (s.deck = [] → gameReducer s (GameAction.DRAW who) = s) := by
  constructor
  · unfold handlePlayerPlay
    rcases h with h | h | h | h
    · rw [if_pos (Or.inl h)]
    · rw [if_pos (Or.inr (Or.inl h))]
    · rw [if_pos (Or.inr (Or.inr h))]
    · split
      · rfl
      · simp [h]
  · intro hdeck
    simp [gameReducer, hdeck]

/-- C1 witness: the amended theorem at a concrete state with an empty draw
pile, where the player attempts a card that fails `isValidMove`. -/
theorem c1_witness :
    handlePlayerPlay g1 fiveClubs = g1 ∧
    gameReducer g1 (GameAction.DRAW Turn.player) = g1 :=
  ⟨(c1_amended_illegal_intents g1 fiveClubs Turn.player (by decide)).1,
   (c1_amended_illegal_intents g1 fiveClubs Turn.player (by decide)).2 rfl⟩

/-- C5 counterexample: in a terminal (`gameOver`) state with a non-empty draw
pile, a DRAW intent still moves the top deck card into a hand — the reducer's
DRAW case has no status guard, so the terminal state is not frozen. -/
theorem c5_counterexample :
    g5.status = GameStatus.gameOver ∧
    (gameReducer g5 (GameAction.DRAW Turn.ai)).aiHand ≠ g5.aiHand := by decide

/-- C5 amended: once `status = gameOver`, play intents submitted through the
player-play entry point leave the state unchanged and skip intents leave both
hands unchanged; but a DRAW intent dispatched against the terminal snapshot
still moves a card (see `c5_counterexample`). -/
theorem c5_amended_terminal (s : GameState) (h : s.status = GameStatus.gameOver) :
    (∀ card : Card, handlePlayerPlay s card = s) ∧
    (∀ who : Turn, (gameReducer s (GameAction.SKIP_TURN who)).playerHand = s.playerHand ∧
      (gameReducer s (GameAction.SKIP_TURN who)).aiHand = s.aiHand) := by
  constructor
  · intro card
    unfold handlePlayerPlay
    rw [if_pos (Or.inl (by rw [h]; exact fun hc => GameStatus.noConfusion hc))]
  · intro who
    simp [gameReducer]

/-- C5 witness: the amended theorem at the concrete terminal state `g5`. -/
theorem c5_witness :
    handlePlayerPlay g5 fiveClubs = g5 ∧
    (gameReducer g5 (GameAction.SKIP_TURN Turn.ai)).aiHand = g5.aiHand :=
  ⟨(c5_amended_terminal g5 rfl).1 fiveClubs, ((c5_amended_terminal g5 rfl).2 Turn.ai).2⟩

/-- C3: evaluation of the code at the failing input.  In state `g3` the AI's
move choice is its Ace of hearts; after dispatching `AI_PLAY` with that Ace
followed by `SET_SUIT hearts` (the code's AI continuation), the declared suit
and picker flag are as specified, but the resulting `turn` is `ai`, not the
human player: `SET_SUIT` hard-codes `turn := ai`, clobbering the `turn :=
player` just set by `AI_PLAY`, so the computer keeps the turn after declaring. -/
theorem c3_bug_eval :
    getAiMove 0 g3.aiHand g3.discardPile.getLast? g3.currentSuit = some aceHearts ∧
    (gameReducer (gameReducer g3 (GameAction.AI_PLAY aceHearts))
        (GameAction.SET_SUIT Suit.hearts)).currentSuit = some Suit.hearts ∧
    (gameReducer (gameReducer g3 (GameAction.AI_PLAY aceHearts))
        (GameAction.SET_SUIT Suit.hearts)).showSuitPicker = false ∧
    (gameReducer (gameReducer g3 (GameAction.AI_PLAY aceHearts))
        (GameAction.SET_SUIT Suit.hearts)).turn = Turn.ai := by decide

/-- Unfolding of `getAiMove` when a top card is present. -/
lemma getAiMove_eq (pick : Nat) (hand : List Card) (t : Card) (cs : Option Suit) :
    getAiMove pick hand (some t) cs =
      if hand.isEmpty then none
      else
        if h : 0 < (normalMoves hand (some t) cs).length then
          some ((normalMoves hand (some t) cs).get
            ⟨pick % (normalMoves hand (some t) cs).length, Nat.mod_lt _ h⟩)
        else
          match hand.find? isAce with
          | some w => some w
          | none => none := rfl

/-- An Ace passes `isValidMove` against anything. -/
lemma isValidMove_of_isAce {c : Card} (h : isAce c = true) (topCard : Option Card)
    (cs : Option Suit) : isValidMove c topCard cs = true := by
  unfold isValidMove
  rw [if_pos (of_decide_eq_true h)]

/-- Whatever `getAiMove` returns is a member of the hand and passes
`isValidMove`. -/
lemma getAiMove_some_spec {pick : Nat} {hand : List Card} {t : Card} {cs : Option Suit}
    {c : Card} (h : getAiMove pick hand (some t) cs = some c) :
    c ∈ hand ∧ isValidMove c (some t) cs = true := by
  rw [getAiMove_eq] at h
  by_cases hemp : hand.isEmpty = true
  · rw [if_pos hemp] at h; cases h
  · rw [if_neg hemp] at h
    by_cases hlen : 0 < (normalMoves hand (some t) cs).length
    · rw [dif_pos hlen] at h
      injection h with h
      subst h
      have hmem := List.get_mem (normalMoves hand (some t) cs)
        (pick % (normalMoves hand (some t) cs).length) (Nat.mod_lt _ hlen)
      have hmf := List.mem_filter.mp hmem
      have hb := hmf.2
      rw [Bool.and_eq_true] at hb
      exact ⟨hmf.1, hb.2⟩
    · rw [dif_neg hlen] at h
      cases hf : hand.find? isAce with
      | none => rw [hf] at h; cases h
      | some w =>
        rw [hf] at h
        injection h with h
        subst h
        exact ⟨List.mem_of_find?_eq_some hf,
          isValidMove_of_isAce (List.find?_some hf) _ _⟩

/-- `getAiMove` returns `none` exactly when no card of the hand passes
`isValidMove`. -/
lemma getAiMove_none_iff (pick : Nat) (hand : List Card) (t : Card) (cs : Option Suit) :
    getAiMove pick hand (some t) cs = none ↔
      ∀ c ∈ hand, isValidMove c (some t) cs = false := by
  constructor
  · intro h c hc
    cases hv : isValidMove c (some t) cs
    · rfl
    · exfalso
      rw [getAiMove_eq] at h
      have hemp : ¬ hand.isEmpty = true := by
        intro hh
        rw [List.isEmpty_iff.mp hh] at hc
        cases hc
      rw [if_neg hemp] at h
      by_cases hlen : 0 < (normalMoves hand (some t) cs).length
      · rw [dif_pos hlen] at h; cases h
      · rw [dif_neg hlen] at h
        cases hace : isAce c with
        | true =>
          cases hf : hand.find? isAce with
          | some w => rw [hf] at h; cases h
          | none => exact List.find?_eq_none.mp hf c hc hace
        | false =>
          have : c ∈ normalMoves hand (some t) cs :=
            List.mem_filter.mpr ⟨hc, by rw [hace, hv]; rfl⟩
          have : 0 < (normalMoves hand (some t) cs).length :=
            List.length_pos.mpr (List.ne_nil_of_mem this)
          exact hlen this
  · intro hall
    rw [getAiMove_eq]
    by_cases hemp : hand.isEmpty = true
    · rw [if_pos hemp]
    · rw [if_neg hemp]
      have hlen : ¬ 0 < (normalMoves hand (some t) cs).length := by
        intro hpos
        obtain ⟨c, hc⟩ := List.exists_mem_of_length_pos hpos
        have hmf := List.mem_filter.mp hc
        have hb := hmf.2
        rw [Bool.and_eq_true] at hb
        have hv := hb.2
        rw [hall c hmf.1] at hv
        cases hv
      rw [dif_neg hlen]
      have hf : hand.find? isAce = none := by
        rw [List.find?_eq_none]
        intro a ha hace
        have := isValidMove_of_isAce hace (some t) cs
        rw [hall a ha] at this
        cases this
      rw [hf]

/-- C7: the computer move chooser is sound (any returned card passes
`isValidMove` against the given top card and declared suit) and complete (it
returns `none` iff no card of the hand passes `isValidMove`), for every
random-pick outcome. -/
theorem c7_ai_sound_complete (pick : Nat) (hand : List Card) (t : Card) (cs : Option Suit) :
    (∀ c : Card, getAiMove pick hand (some t) cs = some c →
      isValidMove c (some t) cs = true) ∧
    (getAiMove pick hand (some t) cs = none ↔
      ∀ c ∈ hand, isValidMove c (some t) cs = false) :=
  ⟨fun _ h => (getAiMove_some_spec h).2, getAiMove_none_iff pick hand t cs⟩

/-- C7 witness: in a hand whose only playable card is an Ace, the chooser
returns that Ace, and the soundness half certifies it valid. -/
theorem c7_witness : isValidMove aceHearts (some sevenDiamonds) none = true :=
  (c7_ai_sound_complete 0 [aceHearts, fiveClubs] sevenDiamonds none).1 aceHearts (by decide)

/-- C8: the chooser's priority order.  If some non-Ace card of the hand passes
`isValidMove`, a card of that subset is returned; otherwise, if the hand holds
an Ace, an Ace of the hand is returned; otherwise `none`. -/
theorem c8_ai_priority (pick : Nat) (hand : List Card) (t : Card) (cs : Option Suit) :
    (normalMoves hand (some t) cs ≠ [] →
      ∃ c, getAiMove pick hand (some t) cs = some c ∧ c ∈ normalMoves hand (some t) cs) ∧
    (normalMoves hand (some t) cs = [] → (∃ a ∈ hand, isAce a = true) →
      ∃ a, getAiMove pick hand (some t) cs = some a ∧ a ∈ hand ∧ isAce a = true) ∧
    (normalMoves hand (some t) cs = [] → (∀ a ∈ hand, isAce a = false) →
      getAiMove pick hand (some t) cs = none) := by
  refine ⟨?_, ?_, ?_⟩
  · intro hne
    have hlen : 0 < (normalMoves hand (some t) cs).length := List.length_pos.mpr hne
    have hemp : ¬ hand.isEmpty = true := by
      intro hh
      rw [List.isEmpty_iff.mp hh] at hne
      exact hne rfl
    rw [getAiMove_eq, if_neg hemp, dif_pos hlen]
    exact ⟨_, rfl, List.get_mem _ _ (Nat.mod_lt _ hlen)⟩
  · rintro hempf ⟨a, ha, hace⟩
    have hemp : ¬ hand.isEmpty = true := by
      intro hh
      rw [List.isEmpty_iff.mp hh] at ha
      cases ha
    have hlen : ¬ 0 < (normalMoves hand (some t) cs).length := by
      rw [hempf]
      simp
    rw [getAiMove_eq, if_neg hemp, dif_neg hlen]
    cases hf : hand.find? isAce with
    | none => exact absurd hace (List.find?_eq_none.mp hf a ha)
    | some w => exact ⟨w, rfl, List.mem_of_find?_eq_some hf, List.find?_some hf⟩
  · intro hempf hall
    by_cases hemp : hand.isEmpty = true
    · rw [getAiMove_eq, if_pos hemp]
    · have hlen : ¬ 0 < (normalMoves hand (some t) cs).length := by
        rw [hempf]
        simp
      have hf : hand.find? isAce = none := by
        rw [List.find?_eq_none]
        intro a ha hace
        have := hall a ha
        rw [hace] at this
        cases this
      rw [getAiMove_eq, if_neg hemp, dif_neg hlen, hf]

/-- C8 witness: the first priority branch at a concrete hand with a non-Ace
rank match. -/
theorem c8_witness :
    ∃ c, getAiMove 0 [fiveClubs] (some fiveHearts) none = some c ∧
      c ∈ normalMoves [fiveClubs] (some fiveHearts) none :=
  (c8_ai_priority 0 [fiveClubs] fiveHearts none).1 (by decide)

/-- A list with a last element is its front followed by that element. -/
lemma getLast?_decomp {l : List Card} {c : Card} (h : l.getLast? = some c) :
    l.dropLast ++ [c] = l := by
  rcases l.eq_nil_or_concat with rfl | ⟨ys, b, rfl⟩
  · simp at h
  · rw [List.concat_eq_append] at h ⊢
    rw [List.getLast?_concat] at h
    injection h with h
    subst h
    rw [List.dropLast_concat]

/-- `takeWhile` never reaches past a failing element, so a suffix beyond one
is irrelevant. -/
lemma takeWhile_append_eq (p : Card → Bool) :
    ∀ (l l2 : List Card), (∃ y ∈ l, p y = false) →
      (l ++ l2).takeWhile p = l.takeWhile p := by
  intro l
  induction l with
  | nil =>
    rintro l2 ⟨y, hy, -⟩
    cases hy
  | cons a tl ih =>
    rintro l2 ⟨y, hy, hpy⟩
    rw [List.cons_append, List.takeWhile_cons, List.takeWhile_cons]
    cases hpa : p a with
    | false => rfl
    | true =>
      have hytl : y ∈ tl := by
        rcases List.mem_cons.mp hy with rfl | h
        · rw [hpa] at hpy; cases hpy
        · exact h
      rw [ih l2 ⟨y, hytl, hpy⟩]

/-- A list containing a failing element is strictly longer than its
`takeWhile`. -/
lemma length_takeWhile_lt (p : Card → Bool) :
    ∀ l : List Card, (∃ x ∈ l, p x = false) → (l.takeWhile p).length < l.length := by
  intro l
  induction l with
  | nil =>
    rintro ⟨x, hx, -⟩
    cases hx
  | cons a tl ih =>
    rintro ⟨x, hx, hpx⟩
    rw [List.takeWhile_cons]
    by_cases hpa : p a = true
    · have hxtl : x ∈ tl := by
        rcases List.mem_cons.mp hx with rfl | h
        · rw [hpa] at hpx; cases hpx
        · exact h
      have := ih ⟨x, hxtl, hpx⟩
      rw [if_pos hpa]
      simp only [List.length_cons]
      omega
    · rw [if_neg hpa]
      simp

/-- Whatever `drawSeed` returns: a non-Ace seed, and seed plus remaining deck
a permutation of the input (one card shorter). -/
lemma drawSeed_sound :
    ∀ (fuel : Nat) (deck : List Card) (c : Card) (rest : List Card),
      drawSeed fuel deck = some (c, rest) →
      isAce c = false ∧ (c :: rest).Perm deck ∧ rest.length + 1 = deck.length := by
  intro fuel
  induction fuel with
  | zero =>
    intro deck c rest h
    simp [drawSeed] at h
  | succ n ih =>
    intro deck c rest h
    rw [drawSeed] at h
    cases hl : deck.getLast? with
    | none => rw [hl] at h; cases h
    | some b =>
      rw [hl] at h
      have h2 : (if isAce b = true then drawSeed n (b :: deck.dropLast)
          else some (b, deck.dropLast)) = some (c, rest) := h
      have hdec := getLast?_decomp hl
      have hperm : (b :: deck.dropLast).Perm deck := by
        refine (List.perm_append_singleton b deck.dropLast).symm.trans ?_
        rw [hdec]
      have hlen : deck.length = deck.dropLast.length + 1 := by
        conv_lhs => rw [← hdec]
        rw [List.length_append]
        rfl
      by_cases hab : isAce b = true
      · rw [if_pos hab] at h2
        obtain ⟨h1, hp, h3⟩ := ih _ _ _ h2
        simp only [List.length_cons] at h3
        exact ⟨h1, hp.trans hperm, by omega⟩
      · rw [if_neg hab] at h2
        injection h2 with h2
        injection h2 with hc hr
        subst hc
        subst hr
        exact ⟨Bool.not_eq_true _ ▸ hab, hperm, by omega⟩

/-- `drawSeed` succeeds whenever the fuel exceeds the trailing run of Aces and
some non-Ace is present. -/
lemma drawSeed_success :
    ∀ (fuel : Nat) (deck : List Card), (deck.reverse.takeWhile isAce).length < fuel →
      (∃ x ∈ deck, isAce x = false) → (drawSeed fuel deck).isSome = true := by
  intro fuel
  induction fuel with
  | zero =>
    intro deck hlt _
    exact absurd hlt (Nat.not_lt_zero _)
  | succ n ih =>
    intro deck hlt hex
    obtain ⟨x, hx, hpx⟩ := hex
    rcases deck.eq_nil_or_concat with rfl | ⟨ys, b, rfl⟩
    · cases hx
    · simp only [List.concat_eq_append] at hlt hx ⊢
      rw [drawSeed, List.getLast?_concat]
      show (if isAce b = true then drawSeed n (b :: (ys ++ [b]).dropLast)
          else some (b, (ys ++ [b]).dropLast)).isSome = true
      rw [List.dropLast_concat]
      by_cases hab : isAce b = true
      · rw [if_pos hab]
        have hxys : x ∈ ys := by
          rcases List.mem_append.mp hx with h | h
          · exact h
          · rcases List.mem_singleton.mp h with rfl
            rw [hab] at hpx
            cases hpx
        apply ih
        · have hrev : (ys ++ [b]).reverse = b :: ys.reverse := by simp
          rw [hrev, List.takeWhile_cons, if_pos hab] at hlt
          simp only [List.length_cons] at hlt
          have hnew : (b :: ys).reverse = ys.reverse ++ [b] := by simp
          rw [hnew,
            takeWhile_append_eq isAce ys.reverse [b] ⟨x, List.mem_reverse.mpr hxys, hpx⟩]
          omega
        · exact ⟨x, List.mem_cons_of_mem b hxys, hpx⟩
      · rw [if_neg hab]
        rfl

/-- A list in which fewer elements pass `p` than there are elements holds a
failing element. -/
lemma exists_nonace_of_count {l : List Card} {p : Card → Bool}
    (h : l.countP p < l.length) : ∃ x ∈ l, p x = false := by
  by_contra hall
  push_neg at hall
  have hall2 : ∀ x ∈ l, p x = true := by
    intro x hx
    cases hb : p x
    · exact absurd hb (hall x hx)
    · rfl
  rw [List.countP_eq_length.mpr hall2] at h
  exact Nat.lt_irrefl _ h

/-- On any permutation of the full deck, the seed loop of `START_GAME`
succeeds: the 36-card remainder holds at most 4 Aces. -/
lemma startGame_success {d : List Card} (hd : d.Perm baseDeck) :
    ∃ c rest, drawSeed (d.drop 16).length (d.drop 16) = some (c, rest) := by
  have hlend : d.length = 52 := by rw [hd.length_eq]; rfl
  have hlen2 : (d.drop 16).length = 36 := by rw [List.length_drop, hlend]
  have hace : d.countP isAce = 4 := by rw [hd.countP_eq isAce]; decide
  have hcount : (d.drop 16).countP isAce ≤ 4 := by
    rw [← hace]
    exact (List.drop_sublist 16 d).countP_le isAce
  have hex : ∃ x ∈ d.drop 16, isAce x = false := exists_nonace_of_count (by omega)
  have hlt : ((d.drop 16).reverse.takeWhile isAce).length < (d.drop 16).length := by
    obtain ⟨x, hx, hpx⟩ := hex
    have := length_takeWhile_lt isAce (d.drop 16).reverse ⟨x, List.mem_reverse.mpr hx, hpx⟩
    rwa [List.length_reverse] at this
  have hsome := drawSeed_success (d.drop 16).length (d.drop 16) hlt hex
  cases hds : drawSeed (d.drop 16).length (d.drop 16) with
  | none => rw [hds] at hsome; cases hsome
  | some pr =>
    obtain ⟨c2, rest2⟩ := pr
    exact ⟨c2, rest2, rfl⟩

/-- C9: for every shuffle outcome, the start-game transition deals 8 cards to
each hand, leaves a 35-card draw pile, and seeds the discard pile with a
single non-Ace card; the popped Ace seeds are returned to the draw pile (seed
plus resulting pile is a permutation of the 36-card remainder). -/
theorem c9_start_deal (d : List Card) (hd : d.Perm baseDeck) (s : GameState) :
    (gameReducer s (GameAction.START_GAME d)).deck.length = 35 ∧
    (gameReducer s (GameAction.START_GAME d)).playerHand.length = 8 ∧
    (gameReducer s (GameAction.START_GAME d)).aiHand.length = 8 ∧
    ∃ c : Card, (gameReducer s (GameAction.START_GAME d)).discardPile = [c] ∧
      c.rank ≠ Rank.A ∧
      (c :: (gameReducer s (GameAction.START_GAME d)).deck).Perm (d.drop 16) := by
  obtain ⟨c, rest, hds⟩ := startGame_success hd
  obtain ⟨hace, hperm, hlen⟩ := drawSeed_sound _ _ _ _ hds
  have hlend : d.length = 52 := by rw [hd.length_eq]; rfl
  have hlen36 : (d.drop 16).length = 36 := by rw [List.length_drop, hlend]
  simp only [gameReducer, startGame, hds]
  refine ⟨by omega, ?_, ?_, c, rfl, ?_, hperm⟩
  · rw [List.length_take, hlend]
    rfl
  · rw [List.length_take, List.length_drop, hlend]
    rfl
  · intro hr
    rw [isAce, hr] at hace
    simp at hace

/-- C9 witness: the theorem at the identity shuffle outcome of the fresh
deck. -/
theorem c9_witness :
    (gameReducer initialState (GameAction.START_GAME baseDeck)).deck.length = 35 ∧
    (gameReducer initialState (GameAction.START_GAME baseDeck)).playerHand.length = 8 ∧
    (gameReducer initialState (GameAction.START_GAME baseDeck)).aiHand.length = 8 ∧
    ∃ c : Card, (gameReducer initialState (GameAction.START_GAME baseDeck)).discardPile = [c] ∧
      c.rank ≠ Rank.A ∧
      (c :: (gameReducer initialState (GameAction.START_GAME baseDeck)).deck).Perm
        (baseDeck.drop 16) :=
  c9_start_deal baseDeck (List.Perm.refl baseDeck) initialState

/-- The ids of the fresh deck are distinct. -/
lemma baseDeck_ids_nodup : (baseDeck.map Card.id).Nodup := by decide

/-- The fresh deck has no duplicate cards. -/
lemma baseDeck_nodup : baseDeck.Nodup := by decide

/-- The player's hand is a sublist of the four zones. -/
lemma playerHand_sublist_zones (s : GameState) : s.playerHand.Sublist (zones s) := by
  unfold zones
  exact ((List.sublist_append_right s.deck s.playerHand).trans
    (List.sublist_append_left _ s.aiHand)).trans
    (List.sublist_append_left _ s.discardPile)

/-- The AI's hand is a sublist of the four zones. -/
lemma aiHand_sublist_zones (s : GameState) : s.aiHand.Sublist (zones s) := by
  unfold zones
  exact ((List.sublist_append_right (s.deck ++ s.playerHand) s.aiHand).trans
    (List.sublist_append_left _ s.discardPile))

/-- Any sub-zone of a conserved state has distinct card ids. -/
lemma sub_ids_nodup {l : List Card} {s : GameState} (h : (zones s).Perm baseDeck)
    (hsub : l.Sublist (zones s)) : (l.map Card.id).Nodup := by
  have h1 : ((zones s).map Card.id).Nodup :=
    ((h.map Card.id).nodup_iff).mpr baseDeck_ids_nodup
  exact (hsub.map Card.id).nodup h1

/-- Removing a present card by id from an id-distinct hand: the hand is a
permutation of the card plus the filtered remainder (the reducer's
`filter(c => c.id !== card.id)`). -/
lemma perm_cons_filter_of_mem :
    ∀ {hand : List Card} {card : Card}, (hand.map Card.id).Nodup → card ∈ hand →
      hand.Perm (card :: hand.filter fun c => decide (c.id ≠ card.id)) := by
  intro hand
  induction hand with
  | nil =>
    intro card _ hmem
    cases hmem
  | cons x t ih =>
    intro card hnd hmem
    rw [List.map_cons, List.nodup_cons] at hnd
    rcases List.mem_cons.mp hmem with rfl | hmt
    · rw [List.filter_cons]
      have hx : (decide (card.id ≠ card.id)) = false := by simp
      rw [hx]
      simp only [Bool.false_eq_true, if_false]
      have hkeep : (t.filter fun c => decide (c.id ≠ card.id)) = t := by
        rw [List.filter_eq_self]
        intro a ha
        simp only [decide_eq_true_eq]
        intro he
        exact hnd.1 (he ▸ List.mem_map_of_mem Card.id ha)
      rw [hkeep]
    · have hxid : (decide (x.id ≠ card.id)) = true := by
        simp only [decide_eq_true_eq]
        intro he
        exact hnd.1 (he ▸ List.mem_map_of_mem Card.id hmt)
      rw [List.filter_cons, hxid]
      simp only [if_true]
      exact ((ih hnd.2 hmt).cons x).trans (List.Perm.swap card x _)

/-- Moving a played card from the second zone to the end of the fourth zone
preserves the multiset of the four zones. -/
lemma zones_perm_play {d pH aH dP f : List Card} {card : Card}
    (hsplit : pH.Perm (card :: f)) :
    (d ++ f ++ aH ++ (dP ++ [card])).Perm (d ++ pH ++ aH ++ dP) := by
  rw [List.perm_iff_count]
  intro a
  have hc := hsplit.count_eq a
  rcases eq_or_ne a card with rfl | hne
  · simp only [List.count_append, List.count_cons_self, List.count_nil] at hc ⊢
    omega
  · simp only [List.count_append, List.count_cons_of_ne hne, List.count_nil] at hc ⊢
    omega

/-- Moving a played card from the third zone to the end of the fourth zone
preserves the multiset of the four zones. -/
lemma zones_perm_play_ai {d pH aH dP f : List Card} {card : Card}
    (hsplit : aH.Perm (card :: f)) :
    (d ++ pH ++ f ++ (dP ++ [card])).Perm (d ++ pH ++ aH ++ dP) := by
  rw [List.perm_iff_count]
  intro a
  have hc := hsplit.count_eq a
  rcases eq_or_ne a card with rfl | hne
  · simp only [List.count_append, List.count_cons_self, List.count_nil] at hc ⊢
    omega
  · simp only [List.count_append, List.count_cons_of_ne hne, List.count_nil] at hc ⊢
    omega

/-- Moving the last deck card to the end of the second zone preserves the
multiset of the four zones. -/
lemma zones_perm_draw_player {deck pH aH dP : List Card} {drawn : Card}
    (hdec : deck.dropLast ++ [drawn] = deck) :
    (deck.dropLast ++ (pH ++ [drawn]) ++ aH ++ dP).Perm (deck ++ pH ++ aH ++ dP) := by
  rw [List.perm_iff_count]
  intro a
  have hc := congrArg (List.count a) hdec
  rcases eq_or_ne a drawn with rfl | hne
  · simp only [List.count_append, List.count_cons_self, List.count_nil] at hc ⊢
    omega
  · simp only [List.count_append, List.count_cons_of_ne hne, List.count_nil] at hc ⊢
    omega

/-- Moving the last deck card to the end of the third zone preserves the
multiset of the four zones. -/
lemma zones_perm_draw_ai {deck pH aH dP : List Card} {drawn : Card}
    (hdec : deck.dropLast ++ [drawn] = deck) :
    (deck.dropLast ++ pH ++ (aH ++ [drawn]) ++ dP).Perm (deck ++ pH ++ aH ++ dP) := by
  rw [List.perm_iff_count]
  intro a
  have hc := congrArg (List.count a) hdec
  rcases eq_or_ne a drawn with rfl | hne
  · simp only [List.count_append, List.count_cons_self, List.count_nil] at hc ⊢
    omega
  · simp only [List.count_append, List.count_cons_of_ne hne, List.count_nil] at hc ⊢
    omega

/-- The conservation invariant: outside the menu the four zones are a
permutation of the full 52-card deck; in the menu every zone is empty. -/
def GameInv (s : GameState) : Prop :=
  (s.status = GameStatus.menu ∧ s.deck = [] ∧ s.playerHand = [] ∧ s.aiHand = [] ∧
    s.discardPile = [])
  ∨ (s.status ≠ GameStatus.menu ∧ (zones s).Perm baseDeck)

/-- The initial state satisfies the invariant. -/
lemma gameInv_init : GameInv initialState :=
  Or.inl ⟨rfl, rfl, rfl, rfl, rfl⟩

/-- A start-game step establishes the invariant. -/
lemma gameInv_start {s : GameState} {d : List Card} (hs : GameInv s) (hd : d.Perm baseDeck) :
    GameInv (gameReducer s (GameAction.START_GAME d)) := by
  show GameInv (startGame d s)
  cases hds : drawSeed (d.drop 16).length (d.drop 16) with
  | none =>
    have heq : startGame d s = s := by
      unfold startGame
      rw [hds]
    rw [heq]
    exact hs
  | some pr =>
    obtain ⟨c, rest⟩ := pr
    obtain ⟨hace, hperm, hlen⟩ := drawSeed_sound _ _ _ _ hds
    have heq : startGame d s =
        { initialState with
            status := GameStatus.playing
            deck := rest
            playerHand := d.take 8
            aiHand := (d.drop 8).take 8
            discardPile := [c]
            message := "你的回合！" } := by
      unfold startGame
      rw [hds]
    rw [heq]
    refine Or.inr ⟨fun hc => GameStatus.noConfusion hc, ?_⟩
    show (rest ++ d.take 8 ++ (d.drop 8).take 8 ++ [c]).Perm baseDeck
    refine List.Perm.trans ?_ hd
    rw [List.perm_iff_count]
    intro a
    have h1 := hperm.count_eq a
    have h2 := congrArg (List.count a) (List.take_append_drop 16 d)
    have h3 : d.take 16 = d.take 8 ++ (d.drop 8).take 8 := by
      have := List.take_add d 8 8
      simpa using this
    rw [h3] at h2
    rcases eq_or_ne a c with rfl | hne
    · simp only [List.count_append, List.count_cons_self, List.count_nil] at h1 h2 ⊢
      omega
    · simp only [List.count_append, List.count_cons_of_ne hne, List.count_nil] at h1 h2 ⊢
      omega

/-- A guarded player play preserves the invariant. -/
lemma gameInv_playerPlay {s : GameState} {card : Card} (hs : GameInv s)
    (hmem : card ∈ s.playerHand) : GameInv (handlePlayerPlay s card) := by
  unfold handlePlayerPlay
  split
  · exact hs
  · split
    · rename_i hguard hvalid
      push_neg at hguard
      obtain ⟨hstat, -, -⟩ := hguard
      rcases hs with ⟨hm, -⟩ | ⟨-, hperm⟩
      · rw [hstat] at hm
        cases hm
      · refine Or.inr ⟨?_, ?_⟩
        · intro hc
          have hc2 : (if (s.playerHand.filter fun c => decide (c.id ≠ card.id)).length = 0
              then GameStatus.gameOver else s.status) = GameStatus.menu := hc
          rw [hstat] at hc2
          split at hc2
          · cases hc2
          · cases hc2
        · have hnodup : (s.playerHand.map Card.id).Nodup :=
            sub_ids_nodup hperm (playerHand_sublist_zones s)
          have hsplit := perm_cons_filter_of_mem hnodup hmem
          have hperm2 : (s.deck ++ s.playerHand ++ s.aiHand ++ s.discardPile).Perm baseDeck :=
            hperm
          show (s.deck ++ (s.playerHand.filter fun c => decide (c.id ≠ card.id)) ++ s.aiHand ++
            (s.discardPile ++ [card])).Perm baseDeck
          exact (zones_perm_play hsplit).trans hperm2
    · exact hs

/-- An AI play driven by `getAiMove` preserves the invariant. -/
lemma gameInv_aiPlay {s : GameState} {card : Card} {pick : Nat} (hs : GameInv s)
    (hmove : getAiMove pick s.aiHand s.discardPile.getLast? s.currentSuit = some card) :
    GameInv (gameReducer s (GameAction.AI_PLAY card)) := by
  rcases hs with ⟨hm, hdeck, hph, hah, hdp⟩ | ⟨hstat, hperm⟩
  · exfalso
    rw [hah] at hmove
    cases htop : s.discardPile.getLast? with
    | none =>
      rw [htop] at hmove
      cases hmove
    | some tc =>
      rw [htop, getAiMove_eq] at hmove
      simp at hmove
  · have hmm : card ∈ s.aiHand := by
      cases htop : s.discardPile.getLast? with
      | none =>
        rw [htop] at hmove
        cases hmove
      | some tc =>
        rw [htop] at hmove
        exact (getAiMove_some_spec hmove).1
    refine Or.inr ⟨?_, ?_⟩
    · intro hc
      have hc2 : (if (s.aiHand.filter fun c => decide (c.id ≠ card.id)).length = 0
          then GameStatus.gameOver else s.status) = GameStatus.menu := hc
      split at hc2
      · cases hc2
      · exact hstat hc2
    · have hnodup : (s.aiHand.map Card.id).Nodup :=
        sub_ids_nodup hperm (aiHand_sublist_zones s)
      have hsplit := perm_cons_filter_of_mem hnodup hmm
      have hperm2 : (s.deck ++ s.playerHand ++ s.aiHand ++ s.discardPile).Perm baseDeck := hperm
      show (s.deck ++ s.playerHand ++ (s.aiHand.filter fun c => decide (c.id ≠ card.id)) ++
        (s.discardPile ++ [card])).Perm baseDeck
      exact (zones_perm_play_ai hsplit).trans hperm2

/-- A draw preserves the invariant. -/
lemma gameInv_draw {s : GameState} {who : Turn} (hs : GameInv s) :
    GameInv (gameReducer s (GameAction.DRAW who)) := by
  cases hl : s.deck.getLast? with
  | none =>
    have heq : gameReducer s (GameAction.DRAW who) = s := by
      unfold gameReducer
      rw [hl]
    rw [heq]
    exact hs
  | some drawn =>
    have hdec := getLast?_decomp hl
    rcases hs with ⟨hm, hdeck, -⟩ | ⟨hstat, hperm⟩
    · rw [hdeck] at hl
      cases hl
    · have hperm2 : (s.deck ++ s.playerHand ++ s.aiHand ++ s.discardPile).Perm baseDeck := hperm
      cases who with
      | player =>
        have heq : gameReducer s (GameAction.DRAW Turn.player) =
            { s with
                deck := s.deck.dropLast
                playerHand := s.playerHand ++ [drawn]
                turn := Turn.ai
                message := "你摸了一张牌。AI 思考中..." } := by
          unfold gameReducer
          rw [hl]
        rw [heq]
        refine Or.inr ⟨hstat, ?_⟩
        show (s.deck.dropLast ++ (s.playerHand ++ [drawn]) ++ s.aiHand ++
          s.discardPile).Perm baseDeck
        exact (zones_perm_draw_player hdec).trans hperm2
      | ai =>
        have heq : gameReducer s (GameAction.DRAW Turn.ai) =
            { s with
                deck := s.deck.dropLast
                aiHand := s.aiHand ++ [drawn]
                turn := Turn.player
                message := "AI 摸了一张牌。你的回合！" } := by
          unfold gameReducer
          rw [hl]
        rw [heq]
        refine Or.inr ⟨hstat, ?_⟩
        show (s.deck.dropLast ++ s.playerHand ++ (s.aiHand ++ [drawn]) ++
          s.discardPile).Perm baseDeck
        exact (zones_perm_draw_ai hdec).trans hperm2

/-- Suit declarations, menu resets, thinking-flag toggles and skips preserve
the invariant (they leave the four zones and, except for the menu reset, the
status untouched). -/
lemma gameInv_other {s : GameState} (hs : GameInv s) (suit : Suit) (b : Bool) (who : Turn) :
    GameInv (gameReducer s (GameAction.SET_SUIT suit)) ∧
    GameInv (gameReducer s GameAction.SET_MENU) ∧
    GameInv (gameReducer s (GameAction.SET_AI_THINKING b)) ∧
    GameInv (gameReducer s (GameAction.SKIP_TURN who)) := by
  refine ⟨?_, Or.inl ⟨rfl, rfl, rfl, rfl, rfl⟩, ?_, ?_⟩ <;>
    rcases hs with ⟨hm, h1, h2, h3, h4⟩ | ⟨hstat, hperm⟩ <;>
    first
      | exact Or.inl ⟨hm, h1, h2, h3, h4⟩
      | exact Or.inr ⟨hstat, hperm⟩

/-- Every reachable state satisfies the invariant. -/
lemma gameInv_reachable {s : GameState} (h : Reachable s) : GameInv s := by
  induction h with
  | init => exact gameInv_init
  | step hr hst ih =>
    cases hst with
    | start d hd => exact gameInv_start ih hd
    | playerPlay card hmem => exact gameInv_playerPlay ih hmem
    | aiPlay card pick hmove => exact gameInv_aiPlay ih hmove
    | draw who => exact gameInv_draw ih
    | setSuit suit => exact (gameInv_other ih suit false Turn.player).1
    | setMenu => exact (gameInv_other ih Suit.hearts false Turn.player).2.1
    | setThinking b => exact (gameInv_other ih Suit.hearts b Turn.player).2.2.1
    | skip who => exact (gameInv_other ih Suit.hearts false who).2.2.2

/-- C2: in every reachable in-game state (status not menu) the four zones are
a permutation of the full 52-card deck: their sizes sum to 52 and no card
appears twice across them. -/
theorem c2_conservation (s : GameState) (h : Reachable s)
    (hm : s.status ≠ GameStatus.menu) :
    (zones s).Perm baseDeck ∧
    s.deck.length + s.playerHand.length + s.aiHand.length + s.discardPile.length = 52 ∧
    (zones s).Nodup := by
  rcases gameInv_reachable h with ⟨hmenu, -⟩ | ⟨-, hperm⟩
  · exact absurd hmenu hm
  · refine ⟨hperm, ?_, ?_⟩
    · have hlen := hperm.length_eq
      have hb : baseDeck.length = 52 := by decide
      simp only [zones, List.length_append] at hlen
      omega
    · exact (hperm.nodup_iff).mpr baseDeck_nodup

/-- C2 witness: the state right after dealing from the identity shuffle is
reachable and conserves the 52 cards. -/
theorem c2_witness :
    (zones (gameReducer initialState (GameAction.START_GAME baseDeck))).Perm baseDeck ∧
    (gameReducer initialState (GameAction.START_GAME baseDeck)).deck.length +
      (gameReducer initialState (GameAction.START_GAME baseDeck)).playerHand.length +
      (gameReducer initialState (GameAction.START_GAME baseDeck)).aiHand.length +
      (gameReducer initialState (GameAction.START_GAME baseDeck)).discardPile.length = 52 ∧
    (zones (gameReducer initialState (GameAction.START_GAME baseDeck))).Nodup :=
  c2_conservation _
    (Reachable.step Reachable.init (Step.start initialState baseDeck (List.Perm.refl baseDeck)))
    (by decide)
